import Mathlib

/-!
Shallow embedding of the Ant Colony Optimization path-search engine of
src/static/js/ants.js (the seeded implementation exported second, lines
395-1292).  JS IEEE-754 numbers are modelled as rationals; `Math.pow` and
`Math.hypot` (the only transcendental operations) are modelled as abstract
function parameters of an environment record, and the JS value `Infinity`
(used for path lengths and best lengths) as the top element of `WithTop ℚ`.
The module-scope mutable variables (`nodes`, `pheromones`, `distances`,
`startNode`, `endNode`, `bestPath`, `bestLength`, `currentBestPath`,
`currentBestLength`, `iteration`, `prng`) become fields of an explicit
`EngineState` threaded through the operations.  Timer and DOM effects
(`draw`, `updateInfo`, `pause` inside `step`) mutate nothing algorithmic
and are not modelled.
-/

namespace Aco

/-- One update of the seeded generator `PRNG`:
`this.seed = (this.seed * 9301 + 49297) % 233280`. -/
def prngNext (s : ℕ) : ℕ := (s * 9301 + 49297) % 233280

/-- The value `prng.random()` returns from state `s`: the state is updated
first and the new state is divided by 233280. -/
def prngVal (s : ℕ) : ℚ := (prngNext s : ℚ) / 233280

/-- Ambient numeric environment: `Math.pow`, `Math.hypot` and the canvas
dimensions (`canvas.width`, `canvas.height`). -/
structure Env where
  pow : ℚ → ℚ → ℚ
  hypot : ℚ → ℚ → ℚ
  width : ℚ
  height : ℚ

/-- `params.graphType`, either the string `'undirected'` or `'directed'`. -/
inductive GraphType where
  | undirected
  | directed
deriving DecidableEq

/-- `params.startDist`, either the string `'uniform'` or `'fixed'`. -/
inductive StartDist where
  | uniform
  | fixed
deriving DecidableEq

/-- The algorithmic fields of the `params` object (lines 420-438).  The
purely technical fields `speed`, `visualizationMode` and `isPreview` touch
no algorithmic state and are omitted. -/
structure Params where
  nodeCount : ℕ
  alpha : ℚ
  beta : ℚ
  rho : ℚ
  Q : ℚ
  colonySize : ℕ
  maxIterations : ℕ
  tau0 : ℚ
  graphType : GraphType
  startDist : StartDist
  seed : ℕ

/-- A node: the 2-D position generated by `generateGraph`. -/
structure Point where
  x : ℚ
  y : ℚ

/-- The module-scope simulation state (lines 440-451).  The matrices are
total functions; only indices below `params.nodeCount` are meaningful. -/
structure EngineState where
  params : Params
  nodes : List Point
  pheromones : ℕ → ℕ → ℚ
  distances : ℕ → ℕ → ℚ
  startNode : ℕ
  endNode : ℕ
  bestPath : Option (List ℕ)
  bestLength : WithTop ℚ
  currentBestPath : Option (List ℕ)
  currentBestLength : WithTop ℚ
  iteration : ℕ
  prng : ℕ

/-- The literal `1e-10`, the floor used both for pheromone evaporation and
for the pheromone/distance floors inside `constructPath`. -/
def tauMin : ℚ := 1 / 10 ^ 10

/-- `dist(a, b) = Math.hypot(a.x - b.x, a.y - b.y)` (line 457). -/
def dist (env : Env) (a b : Point) : ℚ := env.hypot (a.x - b.x) (a.y - b.y)

/-- The node-generation loop of `generateGraph` (lines 472-478): each node
draws x then y from the PRNG, scaled into the canvas minus a margin of 50.
Returns the nodes in order together with the PRNG state after the draws. -/
def genNodes (env : Env) : ℕ → ℕ → List Point × ℕ
  | 0, s => ([], s)
  | n + 1, s =>
    let sx := prngNext s
    let x := (sx : ℚ) / 233280 * (env.width - 100) + 50
    let sy := prngNext sx
    let y := (sy : ℚ) / 233280 * (env.height - 100) + 50
    let rest := genNodes env n sy
    (⟨x, y⟩ :: rest.1, rest.2)

/-- The start/end selection loop of `generateGraph` (lines 481-491): scan
pairs i < j in row-major order, keeping the strictly farthest pair; the
accumulator starts from `maxDistance = 0` and the previous `startNode` and
`endNode` values, which survive when no pair has positive distance. -/
def selectEndpoints (env : Env) (nodes : List Point) (n st0 en0 : ℕ) : ℕ × ℕ :=
  let r := (List.range n).foldl (fun acc i =>
    (List.range n).foldl (fun acc j =>
      if i < j then
        let d := dist env (nodes.getD i ⟨0, 0⟩) (nodes.getD j ⟨0, 0⟩)
        if acc.1 < d then (d, i, j) else acc
      else acc) acc) ((0 : ℚ), st0, en0)
  (r.2.1, r.2.2)

/-- Write a single matrix entry: `m[i][j] = v`. -/
def update2 (m : ℕ → ℕ → ℚ) (i j : ℕ) (v : ℚ) : ℕ → ℕ → ℚ :=
  fun a b => if a = i ∧ b = j then v else m a b

/-- The distance-matrix initialization of `generateGraph` (lines 494-510):
start from the `fill(0)` matrix, then for every ordered pair i ≠ j write
`distances[i][j] = dist(nodes[i], nodes[j])`, mirroring `distances[j][i]`
when the graph is undirected. -/
def initDistances (env : Env) (n : ℕ) (gt : GraphType) (nodes : List Point) :
    ℕ → ℕ → ℚ :=
  (List.range n).foldl (fun m i =>
    (List.range n).foldl (fun m j =>
      if i ≠ j then
        let d := dist env (nodes.getD i ⟨0, 0⟩) (nodes.getD j ⟨0, 0⟩)
        let m1 := update2 m i j d
        if gt = GraphType.undirected then update2 m1 j i d else m1
      else m) m) (fun _ _ => 0)

/-- The pheromone matrix built by `generateGraph` (line 495): an n × n
array with every entry (diagonal included) filled with `params.tau0`.  The
loop's later `pheromones[j][i] = params.tau0` writes (line 506) assign the
fill value again and are no-ops on this matrix. -/
def initPheromones (n : ℕ) (tau0 : ℚ) : ℕ → ℕ → ℚ :=
  fun i j => if i < n ∧ j < n then tau0 else 0

/-- `generateGraph()` (lines 465-518): reseed the PRNG from `params.seed`,
scatter the nodes, pick the farthest pair as start/end, rebuild both
matrices and zero the result fields. -/
def generateGraph (env : Env) (s : EngineState) : EngineState :=
  let g := genNodes env s.params.nodeCount s.params.seed
  let se := selectEndpoints env g.1 s.params.nodeCount s.startNode s.endNode
  { s with
    nodes := g.1
    startNode := se.1
    endNode := se.2
    distances := initDistances env s.params.nodeCount s.params.graphType g.1
    pheromones := initPheromones s.params.nodeCount s.params.tau0
    bestPath := none
    bestLength := ⊤
    currentBestPath := none
    currentBestLength := ⊤
    iteration := 0
    prng := g.2 }

/-- The candidate list built at one construction step (lines 737-748): for
every unvisited j below `nodeCount`, the weight
`pow(max(τ(current,j), 1e-10), α) * pow(1 / max(d(current,j), 1e-10), β)`,
kept only when positive.  (`isFinite` is vacuously true in the rational
model, where no overflow to `Infinity`/`NaN` exists.) -/
def candWeights (env : Env) (p : Params) (pher dst : ℕ → ℕ → ℚ)
    (visited : List ℕ) (current : ℕ) : List (ℕ × ℚ) :=
  (List.range p.nodeCount).filterMap (fun j =>
    if j ∈ visited then none
    else
      let w := env.pow (max (pher current j) tauMin) p.alpha *
        env.pow (1 / max (dst current j) tauMin) p.beta
      if 0 < w then some (j, w) else none)

/-- The cumulative roulette scan (lines 754-763): accumulate the weights in
order and return the first candidate whose running total reaches the drawn
value `r`; `none` when the scan falls through. -/
def rouletteScan (r : ℚ) : ℚ → List (ℕ × ℚ) → Option ℕ
  | _, [] => none
  | acc, jp :: rest =>
    if r ≤ acc + jp.2 then some jp.1 else rouletteScan r (acc + jp.2) rest

/-- Line 765: the scan's result, falling back to the last candidate
evaluated when the scan never reached the drawn value. -/
def chooseFrom (r : ℚ) (cands : List (ℕ × ℚ)) : ℕ :=
  match rouletteScan r 0 cands with
  | some j => j
  | none => (cands.getLastD (0, 0)).1

/-- One iteration of the `while` loop of `constructPath` (lines 732-770):
build the candidate list; if it is empty, break (`none`); otherwise draw
once from the PRNG, scale by the total weight, and choose by the roulette
scan.  Returns the chosen node and the new PRNG state. -/
def constructStep (env : Env) (p : Params) (pher dst : ℕ → ℕ → ℚ)
    (visited : List ℕ) (current : ℕ) (s : ℕ) : Option (ℕ × ℕ) :=
  let cands := candWeights env p pher dst visited current
  if cands = [] then none
  else
    let s1 := prngNext s
    let total := (cands.map Prod.snd).sum
    let r := (s1 : ℚ) / 233280 * total
    some (chooseFrom r cands, s1)

/-- The `while` loop of `constructPath`, with fuel: each iteration either
breaks or appends one fresh node, so `nodeCount` units of fuel are never
exhausted from the top-level call. -/
def constructPathAux (env : Env) (p : Params) (pher dst : ℕ → ℕ → ℚ)
    (endNode : ℕ) : ℕ → List ℕ → List ℕ → ℕ → ℕ → List ℕ × ℕ
  | 0, path, _, _, s => (path, s)
  | fuel + 1, path, visited, current, s =>
    if current ≠ endNode ∧ visited.length < p.nodeCount then
      match constructStep env p pher dst visited current s with
      | none => (path, s)
      | some (j, s1) =>
        constructPathAux env p pher dst endNode fuel (path ++ [j]) (j :: visited) j s1
    else (path, s)

/-- `constructPath(fromNode)` (lines 726-773): path and visited set start
as `[fromNode]` and the walk runs until the end node is reached, every
node is visited, or no candidate has positive weight. -/
def constructPath (env : Env) (p : Params) (pher dst : ℕ → ℕ → ℚ)
    (endNode fromNode : ℕ) (s : ℕ) : List ℕ × ℕ :=
  constructPathAux env p pher dst endNode p.nodeCount [fromNode] [fromNode] fromNode s

/-- Sum of consecutive distances along a path. -/
def pairSum (dst : ℕ → ℕ → ℚ) : List ℕ → ℚ
  | a :: b :: rest => dst a b + pairSum dst (b :: rest)
  | _ => 0

/-- `calculatePathLength(path)` (lines 775-784): `Infinity` for fewer than
two nodes, otherwise the sum of consecutive distances. -/
def calculatePathLength (dst : ℕ → ℕ → ℚ) (path : List ℕ) : WithTop ℚ :=
  if path.length < 2 then ⊤ else (pairSum dst path : ℚ)

/-- `getStartingNode()` (lines 786-794): under the uniform policy one PRNG
draw scaled by `nodeCount` and floored; otherwise the fixed start node.
Returns the chosen node and the PRNG state. -/
def getStartingNode (p : Params) (startNode : ℕ) (s : ℕ) : ℕ × ℕ :=
  if p.startDist = StartDist.uniform then
    let s1 := prngNext s
    (Nat.floor ((s1 : ℚ) / 233280 * (p.nodeCount : ℚ)), s1)
  else (startNode, s)

/-- The ant loop of `step()` (lines 804-815): each ant in order picks a
starting node and constructs a path; the paths are recorded together with
their lengths, threading the PRNG. -/
def runAnts (env : Env) (p : Params) (pher dst : ℕ → ℕ → ℚ)
    (startNode endNode : ℕ) : ℕ → ℕ → List (List ℕ × WithTop ℚ) × ℕ
  | 0, s => ([], s)
  | m + 1, s =>
    let st := getStartingNode p startNode s
    let pr := constructPath env p pher dst endNode st.1 st.2
    let rest := runAnts env p pher dst startNode endNode m pr.2
    ((pr.1, calculatePathLength dst pr.1) :: rest.1, rest.2)

/-- The iteration-best length tracked so far: `Infinity` when no index has
been kept yet. -/
def bestSoFar : Option (List ℕ × WithTop ℚ) → WithTop ℚ
  | none => ⊤
  | some b => b.2

/-- One pass of the iteration-best search (lines 821-830): a path is kept
when it ends at the end node and its length strictly improves. -/
def iterBestStep (e : ℕ) (acc : Option (List ℕ × WithTop ℚ))
    (pl : List ℕ × WithTop ℚ) : Option (List ℕ × WithTop ℚ) :=
  if pl.1.getLastD 0 = e ∧ pl.2 < bestSoFar acc then some pl else acc

/-- The iteration-best search over all ants (lines 817-830). -/
def iterBest (e : ℕ) (l : List (List ℕ × WithTop ℚ)) :
    Option (List ℕ × WithTop ℚ) :=
  l.foldl (iterBestStep e) none

/-- Lines 832-841: when an iteration-best exists, record it as the current
best and promote it to the global best when strictly shorter. -/
def updateBest : Option (List ℕ × WithTop ℚ) → EngineState → EngineState
  | none, s => s
  | some pl, s =>
    if pl.2 < s.bestLength then
      { s with currentBestPath := some pl.1, currentBestLength := pl.2,
               bestPath := some pl.1, bestLength := pl.2 }
    else
      { s with currentBestPath := some pl.1, currentBestLength := pl.2 }

/-- The evaporation loop (lines 843-851): every entry of the n × n matrix
decays by the factor `1 - ρ` and is clamped below at `1e-10`.  Each entry
is written independently, so the double loop is a pointwise map. -/
def evaporate (n : ℕ) (rho : ℚ) (pher : ℕ → ℕ → ℚ) : ℕ → ℕ → ℚ :=
  fun i j =>
    if i < n ∧ j < n then
      let v := pher i j * (1 - rho)
      if v < tauMin then tauMin else v
    else pher i j

/-- `pheromones[i][j] += d` for one ordered pair. -/
def bump (f : ℕ → ℕ → ℚ) (i j : ℕ) (d : ℚ) : ℕ → ℕ → ℚ :=
  fun a b => if a = i ∧ b = j then f a b + d else f a b

/-- The deposit loop over one path (lines 863-872): every consecutive pair
receives `deltaTau`, mirrored to the reverse pair when undirected. -/
def depositPath (gt : GraphType) (d : ℚ) : List ℕ → (ℕ → ℕ → ℚ) → ℕ → ℕ → ℚ
  | a :: b :: rest, f =>
    let f1 := bump f a b d
    let f2 := if gt = GraphType.undirected then bump f1 b a d else f1
    depositPath gt d (b :: rest) f2
  | _, f => f

/-- The reinforcement phase of `step()` (lines 853-873): each ant in order
deposits `Q / pathLength` along its path, but only when the path ends at
the end node with a finite positive length. -/
def reinforce (p : Params) (e : ℕ) (ants : List (List ℕ × WithTop ℚ))
    (pher : ℕ → ℕ → ℚ) : ℕ → ℕ → ℚ :=
  ants.foldl (fun f pl =>
    if pl.1.getLastD 0 = e ∧ pl.2 < ⊤ ∧ 0 < pl.2 then
      depositPath p.graphType (p.Q / pl.2.untop' 0) pl.1 f
    else f) pher

/-- `step()` (lines 796-878).  When the iteration budget is exhausted the
call pauses the timer and returns with the algorithmic state untouched.
Otherwise: run the colony, update the bests, evaporate, reinforce, and
advance the iteration counter.  `draw()`/`updateInfo()` render only. -/
def step (env : Env) (s : EngineState) : EngineState :=
  if s.params.maxIterations ≤ s.iteration then s
  else
    let r := runAnts env s.params s.pheromones s.distances s.startNode s.endNode
      s.params.colonySize s.prng
    let s2 := updateBest (iterBest s.endNode r.1) s
    { s2 with
      pheromones := reinforce s.params s.endNode r.1
        (evaporate s.params.nodeCount s.params.rho s2.pheromones)
      iteration := s2.iteration + 1
      prng := r.2 }

/-- The module-scope state as first initialized (lines 440-451): empty
matrices (modelled as zero functions), `startNode = 0`, `endNode = 1`, no
bests, iteration 0 and a PRNG seeded from `params.seed`. -/
def initState (p : Params) : EngineState :=
  { params := p
    nodes := []
    pheromones := fun _ _ => 0
    distances := fun _ _ => 0
    startNode := 0
    endNode := 1
    bestPath := none
    bestLength := ⊤
    currentBestPath := none
    currentBestLength := ⊤
    iteration := 0
    prng := p.seed }

/-- The sequence of global-best lengths observed after each of n calls to
`step()`. -/
def bestLengthSeq (env : Env) : ℕ → EngineState → List (WithTop ℚ)
  | 0, _ => []
  | n + 1, s => (step env s).bestLength :: bestLengthSeq env n (step env s)

/-- A partial-parameter object passed to `updateParams` (line 934): a field
is `some v` exactly when the JS object carries that key. -/
structure ParamPatch where
  nodeCount : Option ℕ := none
  alpha : Option ℚ := none
  beta : Option ℚ := none
  rho : Option ℚ := none
  Q : Option ℚ := none
  colonySize : Option ℕ := none
  maxIterations : Option ℕ := none
  tau0 : Option ℚ := none
  graphType : Option GraphType := none
  startDist : Option StartDist := none
  seed : Option ℕ := none

/-- `Object.assign(params, newParams)` (line 935): every supplied value is
merged, none is validated. -/
def applyPatch (p : Params) (pt : ParamPatch) : Params :=
  { nodeCount := pt.nodeCount.getD p.nodeCount
    alpha := pt.alpha.getD p.alpha
    beta := pt.beta.getD p.beta
    rho := pt.rho.getD p.rho
    Q := pt.Q.getD p.Q
    colonySize := pt.colonySize.getD p.colonySize
    maxIterations := pt.maxIterations.getD p.maxIterations
    tau0 := pt.tau0.getD p.tau0
    graphType := pt.graphType.getD p.graphType
    startDist := pt.startDist.getD p.startDist
    seed := pt.seed.getD p.seed }

/-- `updateParams(newParams)` (lines 934-965): merge unconditionally, then
regenerate the graph when `nodeCount` or `seed` is supplied; when `tau0`
alone is supplied, overwrite every off-diagonal pheromone entry with the
new value and nothing else (lines 949-959).  The `speed` branch restarts
the timer only. -/
def updateParams (env : Env) (pt : ParamPatch) (s : EngineState) : EngineState :=
  let s1 := { s with params := applyPatch s.params pt }
  if pt.nodeCount.isSome then generateGraph env s1
  else if pt.seed.isSome then generateGraph env s1
  else if pt.tau0.isSome then
    { s1 with pheromones := fun i j =>
        if i < s1.params.nodeCount ∧ j < s1.params.nodeCount ∧ i ≠ j then
          s1.params.tau0
        else s1.pheromones i j }
  else s1

/-! ### Spec-side selection rule (for the refinement claim C2)
The definitions below transcribe the SPEC's words for one construction
step (spec §4.4 steps 1-3, quoted in the claim): the weight of an
unvisited node j is `τ(current,j)^alpha * (1 / max(distance(current,j), ε))^beta`
with ε the small positive floor 1e-10; candidates without a finite,
positive weight are excluded; one PRNG draw scaled by the sum of weights
is scanned cumulatively, ties resolving to the last candidate evaluated. -/

/-- Spec §4.4 step 1: the transition weight of an unvisited node, with no
floor applied to the pheromone itself. -/
def specWeight (env : Env) (p : Params) (pher dst : ℕ → ℕ → ℚ)
    (current j : ℕ) : ℚ :=
  env.pow (pher current j) p.alpha * env.pow (1 / max (dst current j) tauMin) p.beta

/-- Spec §4.4 steps 1-2: the unvisited nodes whose weight is (finite and)
positive, in index order, paired with their weights. -/
def specCandidates (env : Env) (p : Params) (pher dst : ℕ → ℕ → ℚ)
    (visited : List ℕ) (current : ℕ) : List (ℕ × ℚ) :=
  (List.range p.nodeCount).filterMap (fun j =>
    if j ∈ visited then none
    else if 0 < specWeight env p pher dst current j then
      some (j, specWeight env p pher dst current j)
    else none)

/-- Spec §4.4 step 3: roulette-wheel selection — terminate the ant when no
candidate remains, otherwise draw once, scale by the sum of weights, scan
cumulatively and fall back to the last candidate evaluated. -/
def specSelectNext (env : Env) (p : Params) (pher dst : ℕ → ℕ → ℚ)
    (visited : List ℕ) (current : ℕ) (s : ℕ) : Option (ℕ × ℕ) :=
  let cands := specCandidates env p pher dst visited current
  if cands = [] then none
  else
    let s1 := prngNext s
    let total := (cands.map Prod.snd).sum
    some (chooseFrom ((s1 : ℚ) / 233280 * total) cands, s1)

/-! ### Concrete instances used by the witnesses and counterexamples -/

/-- A concrete environment: any interpretation of `Math.pow`/`Math.hypot`
and an 800 × 600 canvas. -/
def envC : Env :=
  { pow := fun x _ => x
    hypot := fun a b => a * a + b * b
    width := 800
    height := 600 }

/-- A concrete configuration with the engine's default parameter values
(lines 420-438): 10 nodes, α = 1, β = 2, ρ = 1/2, Q = 1, m = 10, T = 100,
τ₀ = 1, undirected, uniform starts, seed 42. -/
def cfgC : Params :=
  { nodeCount := 10
    alpha := 1
    beta := 2
    rho := 1 / 2
    Q := 1
    colonySize := 10
    maxIterations := 100
    tau0 := 1
    graphType := GraphType.undirected
    startDist := StartDist.uniform
    seed := 42 }

/-- A small concrete engine state used to instantiate theorems with
hypotheses: a 3-node graph, unit distances and pheromones, iteration 5,
and a recorded best path of length 10. -/
def stC : EngineState :=
  { params := { cfgC with nodeCount := 3, colonySize := 2, maxIterations := 50 }
    nodes := [⟨0, 0⟩, ⟨3, 0⟩, ⟨0, 4⟩]
    pheromones := fun _ _ => 1
    distances := fun _ _ => 1
    startNode := 0
    endNode := 1
    bestPath := some [0, 1]
    bestLength := (10 : ℚ)
    currentBestPath := none
    currentBestLength := ⊤
    iteration := 5
    prng := 7 }

/-- A state with an empty colony, used for the no-successful-ant claim. -/
def stEmptyColony : EngineState :=
  { stC with params := { stC.params with colonySize := 0 } }

/-- The patch `{ rho: 2 }`: an evaporation rate outside (0, 1]. -/
def rhoPatch : ParamPatch := { rho := some 2 }

/-- The patch `{ nodeCount: 1 }`: a node count below 2. -/
def nodeCountPatch : ParamPatch := { nodeCount := some 1 }

/-- The patch `{ tau0: 2 }`. -/
def tau0Patch : ParamPatch := { tau0 := some 2 }

/-- The patch `{ graphType: 'directed' }`. -/
def graphTypePatch : ParamPatch := { graphType := some GraphType.directed }

/-! ### Helper lemmas -/

theorem updateBest_none (s : EngineState) : updateBest none s = s := rfl

theorem updateBest_some_pos (pl : List ℕ × WithTop ℚ) (s : EngineState)
    (h : pl.2 < s.bestLength) :
    updateBest (some pl) s =
      { s with currentBestPath := some pl.1, currentBestLength := pl.2,
               bestPath := some pl.1, bestLength := pl.2 } := if_pos h

theorem updateBest_some_neg (pl : List ℕ × WithTop ℚ) (s : EngineState)
    (h : ¬ pl.2 < s.bestLength) :
    updateBest (some pl) s =
      { s with currentBestPath := some pl.1, currentBestLength := pl.2 } := if_neg h

theorem updateBest_pheromones (ib : Option (List ℕ × WithTop ℚ)) (s : EngineState) :
    (updateBest ib s).pheromones = s.pheromones := by
  cases ib with
  | none => rfl
  | some pl =>
    unfold updateBest
    split <;> first | rfl | (split <;> rfl)

theorem updateBest_iteration (ib : Option (List ℕ × WithTop ℚ)) (s : EngineState) :
    (updateBest ib s).iteration = s.iteration := by
  cases ib with
  | none => rfl
  | some pl =>
    unfold updateBest
    split <;> first | rfl | (split <;> rfl)

/-- `step` in the non-exhausted case, with the lets spelled out. -/
theorem step_def (env : Env) (s : EngineState)
    (h : ¬ s.params.maxIterations ≤ s.iteration) :
    step env s =
      { updateBest (iterBest s.endNode (runAnts env s.params s.pheromones s.distances
            s.startNode s.endNode s.params.colonySize s.prng).1) s with
        pheromones := reinforce s.params s.endNode
          (runAnts env s.params s.pheromones s.distances s.startNode s.endNode
            s.params.colonySize s.prng).1
          (evaporate s.params.nodeCount s.params.rho
            (updateBest (iterBest s.endNode (runAnts env s.params s.pheromones s.distances
              s.startNode s.endNode s.params.colonySize s.prng).1) s).pheromones)
        iteration := (updateBest (iterBest s.endNode (runAnts env s.params s.pheromones
          s.distances s.startNode s.endNode s.params.colonySize s.prng).1) s).iteration + 1
        prng := (runAnts env s.params s.pheromones s.distances s.startNode s.endNode
          s.params.colonySize s.prng).2 } := by
  unfold step
  rw [if_neg h]

theorem step_pheromones (env : Env) (s : EngineState)
    (h : ¬ s.params.maxIterations ≤ s.iteration) :
    (step env s).pheromones = reinforce s.params s.endNode
      (runAnts env s.params s.pheromones s.distances s.startNode s.endNode
        s.params.colonySize s.prng).1
      (evaporate s.params.nodeCount s.params.rho s.pheromones) := by
  rw [step_def env s h]
  show reinforce _ _ _ (evaporate _ _ (updateBest _ s).pheromones) = _
  rw [updateBest_pheromones]

/-- When no kept path ends at the end node, the iteration-best fold keeps
its accumulator. -/
theorem iterBest_fold_skip (e : ℕ) (l : List (List ℕ × WithTop ℚ))
    (h : ∀ pl ∈ l, pl.1.getLastD 0 ≠ e) :
    ∀ acc, l.foldl (iterBestStep e) acc = acc := by
  induction l with
  | nil => intro acc; rfl
  | cons hd tl ih =>
    intro acc
    rw [List.foldl_cons]
    have hhd : iterBestStep e acc hd = acc := by
      unfold iterBestStep
      rw [if_neg]
      intro hc
      exact h hd (List.mem_cons_self hd tl) hc.1
    rw [hhd]
    exact ih (fun pl hm => h pl (List.mem_cons_of_mem hd hm)) acc

theorem iterBest_of_no_success (e : ℕ) (l : List (List ℕ × WithTop ℚ))
    (h : ∀ pl ∈ l, pl.1.getLastD 0 ≠ e) : iterBest e l = none :=
  iterBest_fold_skip e l h none

/-- When no ant's path ends at the end node, the reinforcement phase is
the identity. -/
theorem reinforce_of_no_success (p : Params) (e : ℕ)
    (ants : List (List ℕ × WithTop ℚ))
    (h : ∀ pl ∈ ants, pl.1.getLastD 0 ≠ e) :
    ∀ pher, reinforce p e ants pher = pher := by
  induction ants with
  | nil => intro pher; rfl
  | cons hd tl ih =>
    intro pher
    have hhd : (if hd.1.getLastD 0 = e ∧ hd.2 < ⊤ ∧ 0 < hd.2 then
        depositPath p.graphType (p.Q / hd.2.untop' 0) hd.1 pher else pher) = pher := by
      rw [if_neg]
      intro hc
      exact h hd (List.mem_cons_self hd tl) hc.1
    calc reinforce p e (hd :: tl) pher
        = reinforce p e tl (if hd.1.getLastD 0 = e ∧ hd.2 < ⊤ ∧ 0 < hd.2 then
            depositPath p.graphType (p.Q / hd.2.untop' 0) hd.1 pher else pher) := rfl
      _ = reinforce p e tl pher := by rw [hhd]
      _ = pher := ih (fun pl hm => h pl (List.mem_cons_of_mem hd hm)) pher

/-- A positive finite `WithTop ℚ` length has a positive underlying value. -/
theorem untop'_pos (l : WithTop ℚ) (h1 : 0 < l) (h2 : l < ⊤) :
    0 < l.untop' 0 := by
  induction l using WithTop.recTopCoe with
  | top => exact absurd h2 (lt_irrefl ⊤)
  | coe q =>
    rw [WithTop.untop'_coe]
    exact_mod_cast h1

/-- Depositing a non-negative amount never decreases an entry. -/
theorem le_depositPath (gt : GraphType) (d : ℚ) (hd : 0 ≤ d) :
    ∀ (pa : List ℕ) (f : ℕ → ℕ → ℚ) (u v : ℕ),
      f u v ≤ depositPath gt d pa f u v := by
  intro pa
  induction pa with
  | nil => intro f u v; exact le_refl _
  | cons a tl ih =>
    cases tl with
    | nil => intro f u v; exact le_refl _
    | cons b rest =>
      intro f u v
      have hb1 : ∀ (g : ℕ → ℕ → ℚ) (i j x y : ℕ), g x y ≤ bump g i j d x y := by
        intro g i j x y
        unfold bump
        split
        · exact le_add_of_nonneg_right hd
        · exact le_refl _
      have hstep : depositPath gt d (a :: b :: rest) f =
          depositPath gt d (b :: rest)
            (if gt = GraphType.undirected then bump (bump f a b d) b a d
             else bump f a b d) := rfl
      rw [hstep]
      refine le_trans ?_ (ih _ u v)
      split
      · exact le_trans (hb1 f a b u v) (hb1 (bump f a b d) b a u v)
      · exact hb1 f a b u v

/-- Reinforcement with a non-negative `Q` never decreases an entry. -/
theorem le_reinforce (p : Params) (e : ℕ) (ants : List (List ℕ × WithTop ℚ))
    (hQ : 0 ≤ p.Q) :
    ∀ (pher : ℕ → ℕ → ℚ) (u v : ℕ), pher u v ≤ reinforce p e ants pher u v := by
  induction ants with
  | nil => intro pher u v; exact le_refl _
  | cons hd tl ih =>
    intro pher u v
    have hrw : reinforce p e (hd :: tl) pher = reinforce p e tl
        (if hd.1.getLastD 0 = e ∧ hd.2 < ⊤ ∧ 0 < hd.2 then
          depositPath p.graphType (p.Q / hd.2.untop' 0) hd.1 pher else pher) := rfl
    rw [hrw]
    refine le_trans ?_ (ih _ u v)
    by_cases hc : hd.1.getLastD 0 = e ∧ hd.2 < ⊤ ∧ 0 < hd.2
    · rw [if_pos hc]
      exact le_depositPath p.graphType _
        (div_nonneg hQ (le_of_lt (untop'_pos hd.2 hc.2.2 hc.2.1))) hd.1 pher u v
    · rw [if_neg hc]

/-- The double bump written by one undirected deposit step preserves
symmetry of the matrix. -/
theorem bump_pair_symm (f : ℕ → ℕ → ℚ) (hf : ∀ i j, f i j = f j i)
    (a b : ℕ) (d : ℚ) :
    ∀ i j, bump (bump f a b d) b a d i j = bump (bump f a b d) b a d j i := by
  intro i j
  simp only [bump]
  have e1 : (j = b ∧ i = a) = (i = a ∧ j = b) := propext and_comm
  have e2 : (j = a ∧ i = b) = (i = b ∧ j = a) := propext and_comm
  simp only [e1, e2, hf j i]
  by_cases h1 : i = b ∧ j = a <;> by_cases h2 : i = a ∧ j = b
  · have hab : a = b := h2.1.symm.trans h1.1
    simp [h1, h2, hab]
  · have hab : ¬ b = a := fun hba => h2 ⟨h1.1.trans hba, h1.2.trans hba.symm⟩
    simp [h1, h2, hab]
  · have hab : ¬ a = b := fun hab => h1 ⟨h2.1.trans hab, h2.2.trans hab.symm⟩
    simp [h1, h2, hab]
  · simp [h1, h2]

/-- An undirected deposit along any path preserves symmetry. -/
theorem depositPath_symm (d : ℚ) :
    ∀ (pa : List ℕ) (f : ℕ → ℕ → ℚ), (∀ i j, f i j = f j i) →
      ∀ i j, depositPath GraphType.undirected d pa f i j =
        depositPath GraphType.undirected d pa f j i := by
  intro pa
  induction pa with
  | nil => intro f hf i j; exact hf i j
  | cons a tl ih =>
    cases tl with
    | nil => intro f hf i j; exact hf i j
    | cons b rest =>
      intro f hf i j
      have hstep : ∀ x y, depositPath GraphType.undirected d (a :: b :: rest) f x y =
          depositPath GraphType.undirected d (b :: rest)
            (bump (bump f a b d) b a d) x y := by
        intro x y
        show depositPath GraphType.undirected d (b :: rest)
            (if GraphType.undirected = GraphType.undirected
             then bump (bump f a b d) b a d else bump f a b d) x y = _
        rw [if_pos rfl]
      rw [hstep i j, hstep j i]
      exact ih _ (bump_pair_symm f hf a b d) i j

/-- Evaporation preserves symmetry. -/
theorem evaporate_symm (n : ℕ) (rho : ℚ) (pher : ℕ → ℕ → ℚ)
    (h : ∀ i j, pher i j = pher j i) :
    ∀ i j, evaporate n rho pher i j = evaporate n rho pher j i := by
  intro i j
  unfold evaporate
  have e1 : (i < n ∧ j < n) = (j < n ∧ i < n) := propext and_comm
  simp only [e1, h i j]

/-- In undirected mode the whole reinforcement phase preserves symmetry. -/
theorem reinforce_symm (p : Params) (e : ℕ)
    (hgt : p.graphType = GraphType.undirected)
    (ants : List (List ℕ × WithTop ℚ)) :
    ∀ (pher : ℕ → ℕ → ℚ), (∀ i j, pher i j = pher j i) →
      ∀ i j, reinforce p e ants pher i j = reinforce p e ants pher j i := by
  induction ants with
  | nil => intro pher h i j; exact h i j
  | cons hd tl ih =>
    intro pher h i j
    have hrw : reinforce p e (hd :: tl) pher = reinforce p e tl
        (if hd.1.getLastD 0 = e ∧ hd.2 < ⊤ ∧ 0 < hd.2 then
          depositPath p.graphType (p.Q / hd.2.untop' 0) hd.1 pher else pher) := rfl
    rw [hrw]
    refine ih _ ?_ i j
    intro x y
    by_cases hc : hd.1.getLastD 0 = e ∧ hd.2 < ⊤ ∧ 0 < hd.2
    · rw [if_pos hc, hgt]
      exact depositPath_symm _ hd.1 pher h x y
    · rw [if_neg hc]
      exact h x y

/-- On a duplicate-free path, a directed deposit adds `d` to exactly the
consecutive (ordered) edges of the path. -/
theorem depositPath_directed_char (d : ℚ) :
    ∀ (pa : List ℕ), pa.Nodup → ∀ (f : ℕ → ℕ → ℚ) (u v : ℕ),
      depositPath GraphType.directed d pa f u v =
        f u v + (if (u, v) ∈ pa.zip pa.tail then d else 0) := by
  intro pa
  induction pa with
  | nil => intro _ f u v; simp [depositPath]
  | cons a tl ih =>
    cases tl with
    | nil => intro _ f u v; simp [depositPath]
    | cons b rest =>
      intro hnd f u v
      have hnd2 : (b :: rest).Nodup := hnd.of_cons
      have ha : a ∉ b :: rest := (List.nodup_cons.mp hnd).1
      have hstep : depositPath GraphType.directed d (a :: b :: rest) f =
          depositPath GraphType.directed d (b :: rest) (bump f a b d) := by
        show depositPath GraphType.directed d (b :: rest)
            (if GraphType.directed = GraphType.undirected
             then bump (bump f a b d) b a d else bump f a b d) = _
        rw [if_neg (by intro hcon; cases hcon)]
      rw [hstep, ih hnd2 (bump f a b d) u v]
      have hz : (a :: b :: rest).zip (a :: b :: rest).tail =
          (a, b) :: (b :: rest).zip rest := rfl
      rw [hz]
      have hnotin : ((a, b) : ℕ × ℕ) ∉ (b :: rest).zip rest := by
        intro hmem
        exact ha (List.of_mem_zip hmem).1
      by_cases h1 : (u, v) = (a, b)
      · rw [Prod.mk.injEq] at h1
        obtain ⟨hu, hv⟩ := h1
        subst hu; subst hv
        simp [bump, hnotin]
      · have hb : bump f a b d u v = f u v := by
          unfold bump
          rw [if_neg]
          intro hc
          exact h1 (by rw [Prod.mk.injEq]; exact hc)
        rw [hb]
        have hm : ((u, v) ∈ (a, b) :: (b :: rest).zip rest) =
            ((u, v) ∈ (b :: rest).zip rest) := by
          simp [List.mem_cons, h1]
        simp only [List.tail_cons, hm]

/-- On a duplicate-free path, an undirected deposit adds `d` to exactly
the consecutive edges of the path and their mirror images. -/
theorem depositPath_undirected_char (d : ℚ) :
    ∀ (pa : List ℕ), pa.Nodup → ∀ (f : ℕ → ℕ → ℚ) (u v : ℕ),
      depositPath GraphType.undirected d pa f u v =
        f u v + (if (u, v) ∈ pa.zip pa.tail ∨ (v, u) ∈ pa.zip pa.tail
                 then d else 0) := by
  intro pa
  induction pa with
  | nil => intro _ f u v; simp [depositPath]
  | cons a tl ih =>
    cases tl with
    | nil => intro _ f u v; simp [depositPath]
    | cons b rest =>
      intro hnd f u v
      have hnd2 : (b :: rest).Nodup := hnd.of_cons
      have ha : a ∉ b :: rest := (List.nodup_cons.mp hnd).1
      have hab : a ≠ b := fun hcon => ha (hcon ▸ List.mem_cons_self b rest)
      have hstep : depositPath GraphType.undirected d (a :: b :: rest) f =
          depositPath GraphType.undirected d (b :: rest)
            (bump (bump f a b d) b a d) := by
        show depositPath GraphType.undirected d (b :: rest)
            (if GraphType.undirected = GraphType.undirected
             then bump (bump f a b d) b a d else bump f a b d) = _
        rw [if_pos rfl]
      rw [hstep, ih hnd2 (bump (bump f a b d) b a d) u v]
      have hz : (a :: b :: rest).zip (a :: b :: rest).tail =
          (a, b) :: (b :: rest).zip rest := rfl
      rw [hz]
      have hnotin1 : ((a, b) : ℕ × ℕ) ∉ (b :: rest).zip rest := by
        intro hmem
        exact ha (List.of_mem_zip hmem).1
      have hnotin2 : ((b, a) : ℕ × ℕ) ∉ (b :: rest).zip rest := by
        intro hmem
        exact ha (List.mem_cons_of_mem b (List.of_mem_zip hmem).2)
      by_cases h1 : (u, v) = (a, b)
      · rw [Prod.mk.injEq] at h1
        obtain ⟨hu, hv⟩ := h1
        subst hu; subst hv
        simp [bump, hnotin1, hnotin2, hab, hab.symm, Prod.mk.injEq]
      · by_cases h2 : (u, v) = (b, a)
        · rw [Prod.mk.injEq] at h2
          obtain ⟨hu, hv⟩ := h2
          subst hu; subst hv
          simp [bump, hnotin1, hnotin2, hab, hab.symm, Prod.mk.injEq]
        · have hb : bump (bump f a b d) b a d u v = f u v := by
            unfold bump
            rw [if_neg, if_neg]
            · intro hc; exact h1 (by rw [Prod.mk.injEq]; exact hc)
            · intro hc; exact h2 (by rw [Prod.mk.injEq]; exact hc)
          rw [hb]
          have hm1 : ((u, v) ∈ (a, b) :: (b :: rest).zip rest) =
              ((u, v) ∈ (b :: rest).zip rest) := by
            simp [List.mem_cons, h1]
          have hvu1 : ((v, u) : ℕ × ℕ) = (a, b) ↔ (u, v) = (b, a) := by
            rw [Prod.mk.injEq, Prod.mk.injEq]
            exact and_comm
          have hm2 : ((v, u) ∈ (a, b) :: (b :: rest).zip rest) =
              ((v, u) ∈ (b :: rest).zip rest) := by
            simp only [List.mem_cons]
            rw [propext hvu1]
            simp [h2]
          simp only [List.tail_cons, hm1, hm2]

/-- `genNodes` produces exactly the requested number of nodes. -/
theorem genNodes_len (env : Env) : ∀ (n s : ℕ), (genNodes env n s).1.length = n := by
  intro n
  induction n with
  | zero => intro s; rfl
  | succ k ih =>
    intro s
    show ((⟨_, _⟩ : Point) :: (genNodes env k _).1).length = k + 1
    rw [List.length_cons, ih]

/-! ### Claim theorems -/

/-- C1: For a fixed seed and fixed configuration, two independent runs that
each call `generateGraph` followed by N `step()` calls produce identical
sequences of global-best path lengths.  In the embedding every stochastic
decision (node placement in `genNodes`, start-node selection in
`getStartingNode`, roulette draws in `constructStep`) reads and threads the
single PRNG state seeded from `params.seed`, so a whole run is a pure
function of the configuration: two runs started from equal initial states
agree on every observed best length. -/
theorem determinism_two_runs (env : Env) (cfg : Params) (n : ℕ)
    (s1 s2 : EngineState) (h1 : s1 = initState cfg) (h2 : s2 = initState cfg) :
    bestLengthSeq env n (generateGraph env s1) =
      bestLengthSeq env n (generateGraph env s2) := by
  rw [h1, h2]

/-- Witness for C1: two three-iteration runs at the default configuration. -/
theorem determinism_two_runs_witness :
    bestLengthSeq envC 3 (generateGraph envC (initState cfgC)) =
      bestLengthSeq envC 3 (generateGraph envC (initState cfgC)) :=
  determinism_two_runs envC cfgC 3 (initState cfgC) (initState cfgC) rfl rfl

/-- C2: At each construction step the code's candidate weights, exclusion
rule, roulette-wheel draw and fall-through-to-last-candidate tie-break
(`constructStep`, the loop body of `constructPath`) coincide with the
spec's description (`specSelectNext`): the weight of an unvisited node j is
`τ(current,j)^alpha * (1 / max(distance, ε))^beta` with ε = 1e-10,
non-positive (in the rational model, non-finite-or-non-positive) weights
are excluded, one PRNG draw scaled by the total weight is scanned
cumulatively, and the last candidate is chosen when the scan falls
through.  The hypothesis that every pheromone entry of the current row is
at least 1e-10 (the floor invariant of the engine, claim C3) makes the
code's `max(τ, 1e-10)` guard the identity. -/
theorem roulette_selection_refines_spec (env : Env) (p : Params)
    (pher dst : ℕ → ℕ → ℚ) (visited : List ℕ) (current : ℕ) (s : ℕ)
    (hfloor : ∀ j, j < p.nodeCount → tauMin ≤ pher current j) :
    constructStep env p pher dst visited current s =
      specSelectNext env p pher dst visited current s := by
  have hc : candWeights env p pher dst visited current =
      specCandidates env p pher dst visited current := by
    unfold candWeights specCandidates
    refine List.filterMap_congr ?_
    intro j hj
    rw [List.mem_range] at hj
    rw [max_eq_left (hfloor j hj)]
    rfl
  unfold constructStep specSelectNext
  rw [hc]

/-- Witness for C2: one construction step in the concrete state `stC`,
with the floor hypothesis discharged at the all-ones pheromone matrix. -/
theorem roulette_selection_refines_spec_witness :
    constructStep envC stC.params stC.pheromones stC.distances [0] 0 7 =
      specSelectNext envC stC.params stC.pheromones stC.distances [0] 0 7 :=
  roulette_selection_refines_spec envC stC.params stC.pheromones stC.distances
    [0] 0 7 (fun _ _ => by norm_num [tauMin, stC])

/-- C3: every pheromone entry is at least the floor 1e-10 after the
evaporation phase and still after the reinforcement phase of a `step()`
that actually runs an iteration: evaporation writes
`max(τ_ij * (1 - ρ), 1e-10)` into every entry, and reinforcement only adds
the non-negative deposits `Q / length` (non-negative because a deposit
happens only for a path of positive finite length, and `Q ≥ 0`). -/
theorem pheromone_floor_invariant (env : Env) (s : EngineState)
    (hit : s.iteration < s.params.maxIterations) (hQ : 0 ≤ s.params.Q) :
    (∀ (pher : ℕ → ℕ → ℚ) (rho : ℚ) (i j : ℕ),
        i < s.params.nodeCount → j < s.params.nodeCount →
        evaporate s.params.nodeCount rho pher i j =
          max (pher i j * (1 - rho)) tauMin) ∧
    (∀ (pher : ℕ → ℕ → ℚ) (rho : ℚ) (i j : ℕ),
        i < s.params.nodeCount → j < s.params.nodeCount →
        tauMin ≤ evaporate s.params.nodeCount rho pher i j) ∧
    (∀ i j, i < s.params.nodeCount → j < s.params.nodeCount →
        tauMin ≤ (step env s).pheromones i j) := by
  have hev : ∀ (pher : ℕ → ℕ → ℚ) (rho : ℚ) (i j : ℕ),
      i < s.params.nodeCount → j < s.params.nodeCount →
      evaporate s.params.nodeCount rho pher i j =
        max (pher i j * (1 - rho)) tauMin := by
    intro pher rho i j hi hj
    unfold evaporate
    rw [if_pos ⟨hi, hj⟩]
    by_cases hlt : pher i j * (1 - rho) < tauMin
    · rw [if_pos hlt, max_eq_right (le_of_lt hlt)]
    · rw [if_neg hlt, max_eq_left (not_lt.mp hlt)]
  refine ⟨hev, ?_, ?_⟩
  · intro pher rho i j hi hj
    rw [hev pher rho i j hi hj]
    exact le_max_right _ _
  · intro i j hi hj
    rw [step_pheromones env s (not_le.mpr hit)]
    refine le_trans ?_ (le_reinforce s.params s.endNode _ hQ _ i j)
    rw [hev s.pheromones s.params.rho i j hi hj]
    exact le_max_right _ _

/-- Witness for C3 at the concrete state `stC` (iteration 5 of 50,
Q = 1 ≥ 0). -/
theorem pheromone_floor_invariant_witness :
    (∀ (pher : ℕ → ℕ → ℚ) (rho : ℚ) (i j : ℕ),
        i < stC.params.nodeCount → j < stC.params.nodeCount →
        evaporate stC.params.nodeCount rho pher i j =
          max (pher i j * (1 - rho)) tauMin) ∧
    (∀ (pher : ℕ → ℕ → ℚ) (rho : ℚ) (i j : ℕ),
        i < stC.params.nodeCount → j < stC.params.nodeCount →
        tauMin ≤ evaporate stC.params.nodeCount rho pher i j) ∧
    (∀ i j, i < stC.params.nodeCount → j < stC.params.nodeCount →
        tauMin ≤ (step envC stC).pheromones i j) :=
  pheromone_floor_invariant envC stC (by norm_num [stC, cfgC])
    (by norm_num [stC, cfgC])

/-- C4: in undirected mode the pheromone matrix is symmetric after
initialization (`generateGraph` fills every entry with τ₀) and after every
mutation performed by `step()`: evaporation maps entries pointwise with a
condition symmetric in (i, j), and every undirected deposit writes the
same amount to τ_uv and τ_vu. -/
theorem pheromone_symmetry_undirected (env : Env) (s : EngineState)
    (hgt : s.params.graphType = GraphType.undirected)
    (hsym : ∀ i j, s.pheromones i j = s.pheromones j i) :
    (∀ i j, (generateGraph env s).pheromones i j =
        (generateGraph env s).pheromones j i) ∧
    (∀ i j, (step env s).pheromones i j = (step env s).pheromones j i) := by
  constructor
  · intro i j
    show initPheromones s.params.nodeCount s.params.tau0 i j =
      initPheromones s.params.nodeCount s.params.tau0 j i
    unfold initPheromones
    have e1 : (i < s.params.nodeCount ∧ j < s.params.nodeCount) =
        (j < s.params.nodeCount ∧ i < s.params.nodeCount) := propext and_comm
    simp only [e1]
  · by_cases hg : s.params.maxIterations ≤ s.iteration
    · intro i j
      unfold step
      rw [if_pos hg]
      exact hsym i j
    · intro i j
      rw [step_pheromones env s hg]
      exact reinforce_symm s.params s.endNode hgt _ _
        (evaporate_symm s.params.nodeCount s.params.rho s.pheromones hsym) i j

/-- Witness for C4 at `stC` (undirected, all-ones pheromone matrix). -/
theorem pheromone_symmetry_undirected_witness :
    (∀ i j, (generateGraph envC stC).pheromones i j =
        (generateGraph envC stC).pheromones j i) ∧
    (∀ i j, (step envC stC).pheromones i j = (step envC stC).pheromones j i) :=
  pheromone_symmetry_undirected envC stC rfl (fun _ _ => rfl)

/-- C5: the global-best length never increases across a `step()`, and it
changes only when the iteration-best search returned a successful path of
strictly lower length, in which case `bestPath`/`bestLength` are set to
exactly that path and length. -/
theorem best_length_monotone (env : Env) (s : EngineState) :
    (step env s).bestLength ≤ s.bestLength ∧
    ((step env s).bestLength ≠ s.bestLength →
      (step env s).bestLength < s.bestLength ∧
      ∃ p, iterBest s.endNode (runAnts env s.params s.pheromones s.distances
          s.startNode s.endNode s.params.colonySize s.prng).1 =
            some (p, (step env s).bestLength) ∧
        (step env s).bestPath = some p) := by
  by_cases hg : s.params.maxIterations ≤ s.iteration
  · have he : step env s = s := by
      unfold step
      rw [if_pos hg]
    rw [he]
    exact ⟨le_refl _, fun hne => absurd rfl hne⟩
  · have hstep := step_def env s hg
    rcases hib : iterBest s.endNode (runAnts env s.params s.pheromones s.distances
        s.startNode s.endNode s.params.colonySize s.prng).1 with _ | pl
    · have hbl : (step env s).bestLength = s.bestLength := by
        rw [hstep, hib, updateBest_none]
      exact ⟨le_of_eq hbl, fun hne => absurd hbl hne⟩
    · by_cases hlt : pl.2 < s.bestLength
      · have hbl : (step env s).bestLength = pl.2 := by
          rw [hstep, hib, updateBest_some_pos pl s hlt]
        have hbp : (step env s).bestPath = some pl.1 := by
          rw [hstep, hib, updateBest_some_pos pl s hlt]
        constructor
        · rw [hbl]
          exact le_of_lt hlt
        · intro _
          refine ⟨by rw [hbl]; exact hlt, pl.1, ?_, hbp⟩
          rw [hbl]
      · have hbl : (step env s).bestLength = s.bestLength := by
          rw [hstep, hib, updateBest_some_neg pl s hlt]
        exact ⟨le_of_eq hbl, fun hne => absurd hbl hne⟩

/-- Closed instance of C5 at the concrete state `stC`. -/
theorem best_length_monotone_witness :
    (step envC stC).bestLength ≤ stC.bestLength :=
  (best_length_monotone envC stC).1

/-- C6: only successful paths reinforce.  An ant whose path does not end
at the end node leaves every entry unchanged by its reinforcement pass;
the whole phase is the ant-by-ant fold of such passes; and a successful
ant of finite positive length adds exactly `Q / length` to every
consecutive edge of its (duplicate-free) path, mirrored to the reverse
edge exactly when the graph is undirected, and changes nothing else. -/
theorem reinforcement_success_only (p : Params) (e : ℕ) (pa : List ℕ)
    (l : WithTop ℚ) (pher : ℕ → ℕ → ℚ) :
    (pa.getLastD 0 ≠ e → reinforce p e [(pa, l)] pher = pher) ∧
    (∀ rest, reinforce p e ((pa, l) :: rest) pher =
      reinforce p e rest (reinforce p e [(pa, l)] pher)) ∧
    (pa.getLastD 0 = e → l < ⊤ → 0 < l → pa.Nodup → ∀ u v,
      reinforce p e [(pa, l)] pher u v = pher u v +
        (if (u, v) ∈ pa.zip pa.tail ∨
            (p.graphType = GraphType.undirected ∧ (v, u) ∈ pa.zip pa.tail)
         then p.Q / l.untop' 0 else 0)) := by
  have hone : reinforce p e [(pa, l)] pher =
      (if pa.getLastD 0 = e ∧ l < ⊤ ∧ 0 < l then
        depositPath p.graphType (p.Q / l.untop' 0) pa pher else pher) := rfl
  refine ⟨?_, ?_, ?_⟩
  · intro hne
    rw [hone, if_neg]
    intro hc
    exact hne hc.1
  · intro rest
    rfl
  · intro hlast hlt hpos hnd u v
    rw [hone, if_pos ⟨hlast, hlt, hpos⟩]
    cases hgt : p.graphType with
    | undirected =>
      rw [depositPath_undirected_char (p.Q / l.untop' 0) pa hnd pher u v]
      simp
    | directed =>
      rw [depositPath_directed_char (p.Q / l.untop' 0) pa hnd pher u v]
      simp

/-- Closed instance of C6 at a concrete successful two-node path: the
traversed edge (0,1) and its mirror (1,0) each gain `Q / 2`, a
non-adjacent entry is untouched, and an unsuccessful single-ant phase is
the identity. -/
theorem reinforcement_success_only_witness :
    reinforce stC.params 1 [([0, 1], ((2 : ℚ) : WithTop ℚ))] stC.pheromones 0 1 =
      stC.pheromones 0 1 + stC.params.Q / 2 ∧
    reinforce stC.params 1 [([0, 1], ((2 : ℚ) : WithTop ℚ))] stC.pheromones 2 2 =
      stC.pheromones 2 2 ∧
    reinforce stC.params 1 [([0, 2], ((2 : ℚ) : WithTop ℚ))] stC.pheromones =
      stC.pheromones := by
  have h1 := (reinforcement_success_only stC.params 1 [0, 1]
    ((2 : ℚ) : WithTop ℚ) stC.pheromones).2.2 rfl (by decide) (by decide)
    (by decide) 0 1
  have h2 := (reinforcement_success_only stC.params 1 [0, 1]
    ((2 : ℚ) : WithTop ℚ) stC.pheromones).2.2 rfl (by decide) (by decide)
    (by decide) 2 2
  have h3 := (reinforcement_success_only stC.params 1 [0, 2]
    ((2 : ℚ) : WithTop ℚ) stC.pheromones).1 (by decide)
  refine ⟨?_, ?_, h3⟩
  · rw [h1]
    have hc : ((0, 1) ∈ [0, 1].zip ([0, 1] : List ℕ).tail ∨
        (stC.params.graphType = GraphType.undirected ∧
          (1, 0) ∈ [0, 1].zip ([0, 1] : List ℕ).tail)) :=
      Or.inl (List.Mem.head _)
    rw [if_pos hc, WithTop.untop'_coe]
  · rw [h2]
    have hc : ¬ ((2, 2) ∈ [0, 1].zip ([0, 1] : List ℕ).tail ∨
        (stC.params.graphType = GraphType.undirected ∧
          (2, 2) ∈ [0, 1].zip ([0, 1] : List ℕ).tail)) := by
      intro hcon
      rcases hcon with h | ⟨-, h⟩ <;> simp at h
    rw [if_neg hc, add_zero]

/-- C7: an iteration in which no ant's path ends at the end node is not an
error: provided the iteration budget is not exhausted, `step()` still
applies evaporation to every pheromone entry, leaves the global and
current best-path state unchanged, and completes normally, advancing the
iteration counter (the embedding is total, so no exception can occur). -/
theorem iteration_without_success_is_benign (env : Env) (s : EngineState)
    (hit : s.iteration < s.params.maxIterations)
    (hfail : ∀ pl ∈ (runAnts env s.params s.pheromones s.distances s.startNode
        s.endNode s.params.colonySize s.prng).1, pl.1.getLastD 0 ≠ s.endNode) :
    (∀ i j, (step env s).pheromones i j =
        evaporate s.params.nodeCount s.params.rho s.pheromones i j) ∧
    (step env s).bestPath = s.bestPath ∧
    (step env s).bestLength = s.bestLength ∧
    (step env s).currentBestPath = s.currentBestPath ∧
    (step env s).iteration = s.iteration + 1 := by
  have hg : ¬ s.params.maxIterations ≤ s.iteration := not_le.mpr hit
  have hib : iterBest s.endNode (runAnts env s.params s.pheromones s.distances
      s.startNode s.endNode s.params.colonySize s.prng).1 = none :=
    iterBest_of_no_success _ _ hfail
  have hre : reinforce s.params s.endNode (runAnts env s.params s.pheromones
      s.distances s.startNode s.endNode s.params.colonySize s.prng).1
      (evaporate s.params.nodeCount s.params.rho s.pheromones) =
      evaporate s.params.nodeCount s.params.rho s.pheromones :=
    reinforce_of_no_success _ _ _ (fun pl hm => hfail pl hm) _
  refine ⟨?_, ?_, ?_, ?_, ?_⟩
  · intro i j
    rw [step_pheromones env s hg, hre]
  · rw [step_def env s hg, hib, updateBest_none]
  · rw [step_def env s hg, hib, updateBest_none]
  · rw [step_def env s hg, hib, updateBest_none]
  · rw [step_def env s hg, hib, updateBest_none]

/-- Closed instance of C7 at a state with an empty colony (no ant runs,
so in particular none reaches the end node). -/
theorem iteration_without_success_is_benign_witness :
    (∀ i j, (step envC stEmptyColony).pheromones i j =
        evaporate stEmptyColony.params.nodeCount stEmptyColony.params.rho
          stEmptyColony.pheromones i j) ∧
    (step envC stEmptyColony).bestPath = stEmptyColony.bestPath ∧
    (step envC stEmptyColony).bestLength = stEmptyColony.bestLength ∧
    (step envC stEmptyColony).currentBestPath = stEmptyColony.currentBestPath ∧
    (step envC stEmptyColony).iteration = stEmptyColony.iteration + 1 :=
  iteration_without_success_is_benign envC stEmptyColony (by norm_num [stEmptyColony, stC, cfgC])
    (fun pl hm => absurd hm (List.not_mem_nil pl))

/-- Counterexample to C8 as stated: invalid configuration values are NOT
rejected.  `updateParams` with `{ rho: 2 }` (ρ outside (0,1]) silently
overwrites the previously valid ρ = 1/2, and `updateParams` with
`{ nodeCount: 1 }` (below the required minimum of 2) is accepted and
regenerates a one-node graph instead of failing — the engine does not
remain in its previous state. -/
theorem config_validation_counterexample :
    (updateParams envC rhoPatch stC).params.rho = 2 ∧
    stC.params.rho = 1 / 2 ∧
    (updateParams envC nodeCountPatch stC).params.nodeCount = 1 ∧
    (updateParams envC nodeCountPatch stC).nodes.length = 1 :=
  ⟨rfl, rfl, rfl, rfl⟩

/-- C8 amended: no configuration value is validated anywhere.
`updateParams` merges every supplied value into `params` unconditionally
(`Object.assign`), so node count < 2, colony size < 1, ρ outside (0,1] and
τ₀ ≤ 0 are all silently accepted, and `generateGraph` never fails: it
produces a graph with exactly `nodeCount` nodes for every node count,
including 0 and 1. -/
theorem updateParams_never_rejects (env : Env) (pt : ParamPatch)
    (s : EngineState) :
    (updateParams env pt s).params = applyPatch s.params pt ∧
    (generateGraph env s).nodes.length = s.params.nodeCount := by
  constructor
  · unfold updateParams
    split
    · rfl
    · split
      · rfl
      · split <;> rfl
  · show (genNodes env s.params.nodeCount s.params.seed).1.length = s.params.nodeCount
    exact genNodes_len env s.params.nodeCount s.params.seed

/-- Counterexample to C9 as stated: an `updateParams` call that changes τ₀
does NOT trigger an implicit reset.  At a state with iteration 5 and a
recorded best path, `{ tau0: 2 }` rewrites the off-diagonal pheromone
entries to 2 but leaves the iteration counter at 5 and the best-path state
in place (a `reset()` would zero them). -/
theorem tau0_update_no_reset_counterexample :
    (updateParams envC tau0Patch stC).iteration = 5 ∧
    (updateParams envC tau0Patch stC).bestLength = ((10 : ℚ) : WithTop ℚ) ∧
    (updateParams envC tau0Patch stC).bestPath = some [0, 1] ∧
    (updateParams envC tau0Patch stC).pheromones 0 1 = 2 ∧
    (updateParams envC tau0Patch stC).pheromones 0 0 = 1 ∧
    stC.iteration = 5 ∧ stC.pheromones 0 1 = 1 := by
  refine ⟨rfl, rfl, rfl, ?_, ?_, rfl, rfl⟩ <;> decide

/-- C9 amended: an `updateParams` call whose patch carries only `tau0`
overwrites every off-diagonal in-range pheromone entry with the new τ₀ and
changes nothing else: the diagonal, the iteration counter, the best-path
and current-best state, the graph and the PRNG all survive, and no reset
happens.  A directionality change through `updateParams` alone merges the
flag but leaves even the pheromone field untouched. -/
theorem tau0_update_behavior (env : Env) (s : EngineState) (q : ℚ)
    (gt : GraphType) :
    ((updateParams env { tau0 := some q } s).pheromones = (fun i j =>
        if i < s.params.nodeCount ∧ j < s.params.nodeCount ∧ i ≠ j then q
        else s.pheromones i j) ∧
      (updateParams env { tau0 := some q } s).iteration = s.iteration ∧
      (updateParams env { tau0 := some q } s).bestPath = s.bestPath ∧
      (updateParams env { tau0 := some q } s).bestLength = s.bestLength ∧
      (updateParams env { tau0 := some q } s).currentBestPath = s.currentBestPath ∧
      (updateParams env { tau0 := some q } s).nodes = s.nodes ∧
      (updateParams env { tau0 := some q } s).prng = s.prng ∧
      (updateParams env { tau0 := some q } s).params =
        { s.params with tau0 := q }) ∧
    ((updateParams env { graphType := some gt } s).pheromones = s.pheromones ∧
      (updateParams env { graphType := some gt } s).iteration = s.iteration ∧
      (updateParams env { graphType := some gt } s).bestPath = s.bestPath ∧
      (updateParams env { graphType := some gt } s).params =
        { s.params with graphType := gt }) :=
  ⟨⟨rfl, rfl, rfl, rfl, rfl, rfl, rfl, rfl⟩, ⟨rfl, rfl, rfl, rfl⟩⟩

/-- C10: under the uniform start policy an ant can draw the end node as
its starting node (PRNG state 23 does so at the default 10-node
configuration, where `initState` designates end node 1).  Such an ant's
constructed path is the single-node sequence `[endNode]` with the PRNG
untouched, its computed length is `Infinity`, its last element does equal
the end node, yet it never deposits pheromone (the `pathLength < Infinity`
guard fails) and the iteration-best fold skips it (`Infinity <` anything
is false), so it can never become the iteration-best — and since the
global best is only ever updated from the iteration-best (C5), it never
becomes the global best either. -/
theorem uniform_start_endnode_inert :
    ((getStartingNode cfgC (initState cfgC).startNode 23).1 =
      (initState cfgC).endNode) ∧
    (∀ (env : Env) (p : Params) (pher dst : ℕ → ℕ → ℚ) (e s0 : ℕ),
      constructPath env p pher dst e e s0 = ([e], s0)) ∧
    (∀ (dst : ℕ → ℕ → ℚ) (e : ℕ), calculatePathLength dst [e] = ⊤) ∧
    (∀ e : ℕ, ([e] : List ℕ).getLastD 0 = e) ∧
    (∀ (p : Params) (e : ℕ) (pher : ℕ → ℕ → ℚ),
      reinforce p e [([e], ⊤)] pher = pher) ∧
    (∀ (e : ℕ) (acc : Option (List ℕ × WithTop ℚ)),
      iterBestStep e acc ([e], ⊤) = acc) := by
  refine ⟨?_, ?_, ?_, ?_, ?_, ?_⟩
  · have hg : getStartingNode cfgC (initState cfgC).startNode 23 =
        (Nat.floor ((prngNext 23 : ℚ) / 233280 * (cfgC.nodeCount : ℚ)),
          prngNext 23) := if_pos rfl
    rw [hg]
    show Nat.floor ((prngNext 23 : ℚ) / 233280 * (cfgC.nodeCount : ℚ)) = 1
    have h23 : prngNext 23 = 29940 := by norm_num [prngNext]
    rw [h23, Nat.floor_eq_iff (by positivity)]
    constructor <;> norm_num [cfgC]
  · intro env p pher dst e s0
    unfold constructPath
    cases p.nodeCount with
    | zero => rfl
    | succ k =>
      have hcond : ¬ (e ≠ e ∧ ([e] : List ℕ).length < p.nodeCount) :=
        fun hc => hc.1 rfl
      simp only [constructPathAux]
      rw [if_neg hcond]
  · intro dst e
    rfl
  · intro e
    rfl
  · intro p e pher
    show (if ([e] : List ℕ).getLastD 0 = e ∧ (⊤ : WithTop ℚ) < ⊤ ∧
        0 < (⊤ : WithTop ℚ) then
      depositPath p.graphType (p.Q / (⊤ : WithTop ℚ).untop' 0) [e] pher
      else pher) = pher
    rw [if_neg]
    intro hc
    exact lt_irrefl _ hc.2.1
  · intro e acc
    unfold iterBestStep
    rw [if_neg]
    intro hc
    exact WithTop.not_top_lt _ hc.2

end Aco
